import Mathlib

/-!
Shallow embedding of the peer-to-peer UDP chat endpoint from
`src/work-1/src/message.rs` and `src/work-1/src/client.rs`.

Modelling conventions:
- Rust `String` values are modelled by their UTF-8 byte sequences (`List Nat`).
- Socket addresses (`SocketAddr`) are modelled by `Nat`.
- The blocking UDP socket is modelled by an explicit list of incoming
  datagrams (source address, payload bytes); outgoing traffic is collected
  in a `sent` list of (destination address, payload bytes) pairs.
- A Rust panic (out-of-bounds indexing, `unwrap` on `None`) is modelled by an
  explicit `panicked` outcome; a receive that would block forever because the
  modelled input stream is exhausted is the `blocked` outcome.
- `anyhow` error values are modelled by the inductive `ProtoError`, one
  constructor per distinct `bail!`/`anyhow!`/`ensure!` site, carrying the
  formatted message where one is interpolated.
-/

/-- Wire messages, from `message.rs`.  `Text` carries the UTF-8 bytes of the
Rust `String`.  (The spec calls `SuccesfullyConnected` "ConnectionAccepted"
and `SuccesfullyDisonnected` "DisconnectAck"; the source names are kept.) -/
inductive Message where
  | TryConnect
  | SuccesfullyConnected
  | Unexpected
  | Disconnect
  | SuccesfullyDisonnected
  | Text (t : List Nat)
  deriving DecidableEq, Repr

/-- One `anyhow` error value per construction site in the source. -/
inductive ProtoError where
  | wrongServiceMessageType
  | wrongMessageType
  | disconnected
  | unexpectedMessage (m : Message)
  | expectedTryConnect (m : Message)
  | serverNotWaiting
  | expectedSuccesfullyConnected (m : Message)
  | selfConnect
  deriving DecidableEq, Repr

/-- Result of `Message::from_bytes`: a decoded message, a decode error, or a
Rust panic (out-of-bounds slice indexing). -/
inductive DecodeResult where
  | ok (m : Message)
  | err (e : ProtoError)
  | panicked
  deriving DecidableEq, Repr

/-- Lower bound for the second byte of a multi-byte UTF-8 sequence headed by
`b0` (E0 needs A0.., F0 needs 90..). -/
def utf8Lo (b0 : Nat) : Nat :=
  if b0 = 0xE0 then 0xA0 else if b0 = 0xF0 then 0x90 else 0x80

/-- Upper bound for the second byte of a multi-byte UTF-8 sequence headed by
`b0` (ED allows ..9F, excluding surrogates; F4 allows ..8F, capping at
U+10FFFF). -/
def utf8Hi (b0 : Nat) : Nat :=
  if b0 = 0xED then 0x9F else if b0 = 0xF4 then 0x8F else 0xBF

/-- UTF-8 encoding of the replacement character U+FFFD. -/
def replacement : List Nat := [0xEF, 0xBF, 0xBD]

/-- Model of the Rust standard library function `String::from_utf8_lossy`, at the
byte level: well-formed UTF-8 sequences (RFC 3629 table) are copied verbatim,
ill-formed subsequences are replaced by the replacement character,
resynchronising at the first offending byte.  This function is
standard-library behaviour, not code of this repository; the claims only rely
on it being the identity on valid UTF-8. -/
def utf8Lossy : List Nat → List Nat
  | [] => []
  | b0 :: t0 =>
    if b0 ≤ 0x7F then b0 :: utf8Lossy t0
    else if 0xC2 ≤ b0 ∧ b0 ≤ 0xDF then
      match t0 with
      | [] => replacement
      | b1 :: t1 =>
        if 0x80 ≤ b1 ∧ b1 ≤ 0xBF then b0 :: b1 :: utf8Lossy t1
        else replacement ++ utf8Lossy (b1 :: t1)
    else if 0xE0 ≤ b0 ∧ b0 ≤ 0xEF then
      match t0 with
      | [] => replacement
      | b1 :: t1 =>
        if utf8Lo b0 ≤ b1 ∧ b1 ≤ utf8Hi b0 then
          match t1 with
          | [] => replacement
          | b2 :: t2 =>
            if 0x80 ≤ b2 ∧ b2 ≤ 0xBF then b0 :: b1 :: b2 :: utf8Lossy t2
            else replacement ++ utf8Lossy (b2 :: t2)
        else replacement ++ utf8Lossy (b1 :: t1)
    else if 0xF0 ≤ b0 ∧ b0 ≤ 0xF4 then
      match t0 with
      | [] => replacement
      | b1 :: t1 =>
        if utf8Lo b0 ≤ b1 ∧ b1 ≤ utf8Hi b0 then
          match t1 with
          | [] => replacement
          | b2 :: t2 =>
            if 0x80 ≤ b2 ∧ b2 ≤ 0xBF then
              match t2 with
              | [] => replacement
              | b3 :: t3 =>
                if 0x80 ≤ b3 ∧ b3 ≤ 0xBF then b0 :: b1 :: b2 :: b3 :: utf8Lossy t3
                else replacement ++ utf8Lossy (b3 :: t3)
            else replacement ++ utf8Lossy (b2 :: t2)
        else replacement ++ utf8Lossy (b1 :: t1)
    else replacement ++ utf8Lossy t0

/-- Validity of a byte sequence as UTF-8 (RFC 3629 table), with the same
recursion structure as `utf8Lossy`.  A Rust `String` always satisfies this. -/
def utf8Valid : List Nat → Bool
  | [] => true
  | b0 :: t0 =>
    if b0 ≤ 0x7F then utf8Valid t0
    else if 0xC2 ≤ b0 ∧ b0 ≤ 0xDF then
      match t0 with
      | [] => false
      | b1 :: t1 => if 0x80 ≤ b1 ∧ b1 ≤ 0xBF then utf8Valid t1 else false
    else if 0xE0 ≤ b0 ∧ b0 ≤ 0xEF then
      match t0 with
      | [] => false
      | b1 :: t1 =>
        if utf8Lo b0 ≤ b1 ∧ b1 ≤ utf8Hi b0 then
          match t1 with
          | [] => false
          | b2 :: t2 => if 0x80 ≤ b2 ∧ b2 ≤ 0xBF then utf8Valid t2 else false
        else false
    else if 0xF0 ≤ b0 ∧ b0 ≤ 0xF4 then
      match t0 with
      | [] => false
      | b1 :: t1 =>
        if utf8Lo b0 ≤ b1 ∧ b1 ≤ utf8Hi b0 then
          match t1 with
          | [] => false
          | b2 :: t2 =>
            if 0x80 ≤ b2 ∧ b2 ≤ 0xBF then
              match t2 with
              | [] => false
              | b3 :: t3 => if 0x80 ≤ b3 ∧ b3 ≤ 0xBF then utf8Valid t3 else false
            else false
        else false
    else false

/-- On valid UTF-8 input, lossy decoding is the identity (so
`String::from_utf8_lossy` returns the input unchanged). -/
theorem utf8Lossy_of_valid (l : List Nat) (h : utf8Valid l = true) :
    utf8Lossy l = l := by
  induction l using utf8Lossy.induct with
  | case1 => rfl
  | case2 b0 t0 h0 ih =>
    rw [utf8Valid.eq_def] at h
    simp [h0] at h
    rw [utf8Lossy.eq_def]
    simp [h0, ih h]
  | case3 b0 h0 h1 =>
    rw [utf8Valid.eq_def] at h
    simp [h0, h1] at h
  | case4 b0 h0 h1 b1 t1 hc ih =>
    rw [utf8Valid.eq_def] at h
    simp [h0, h1, hc] at h
    rw [utf8Lossy.eq_def]
    simp [h0, h1, hc, ih h]
  | case5 b0 h0 h1 b1 t1 hc ih =>
    rw [utf8Valid.eq_def] at h
    simp [h0, h1, hc] at h
  | case6 b0 h0 h1 h2 =>
    rw [utf8Valid.eq_def] at h
    simp [h0, h1, h2] at h
  | case7 b0 h0 h1 h2 b1 hlh =>
    rw [utf8Valid.eq_def] at h
    simp [h0, h1, h2, hlh] at h
  | case8 b0 h0 h1 h2 b1 hlh b2 t2 hc ih =>
    rw [utf8Valid.eq_def] at h
    simp [h0, h1, h2, hlh, hc] at h
    rw [utf8Lossy.eq_def]
    simp [h0, h1, h2, hlh, hc, ih h]
  | case9 b0 h0 h1 h2 b1 hlh b2 t2 hc ih =>
    rw [utf8Valid.eq_def] at h
    simp [h0, h1, h2, hlh, hc] at h
  | case10 b0 h0 h1 h2 b1 t1 hlh ih =>
    rw [utf8Valid.eq_def] at h
    simp [h0, h1, h2, hlh] at h
  | case11 b0 h0 h1 h2 h3 =>
    rw [utf8Valid.eq_def] at h
    simp [h0, h1, h2, h3] at h
  | case12 b0 h0 h1 h2 h3 b1 hlh =>
    rw [utf8Valid.eq_def] at h
    simp [h0, h1, h2, h3, hlh] at h
  | case13 b0 h0 h1 h2 h3 b1 hlh b2 hc =>
    rw [utf8Valid.eq_def] at h
    simp [h0, h1, h2, h3, hlh, hc] at h
  | case14 b0 h0 h1 h2 h3 b1 hlh b2 hc b3 t3 hc3 ih =>
    rw [utf8Valid.eq_def] at h
    simp [h0, h1, h2, h3, hlh, hc, hc3] at h
    rw [utf8Lossy.eq_def]
    simp [h0, h1, h2, h3, hlh, hc, hc3, ih h]
  | case15 b0 h0 h1 h2 h3 b1 hlh b2 hc b3 t3 hc3 ih =>
    rw [utf8Valid.eq_def] at h
    simp [h0, h1, h2, h3, hlh, hc, hc3] at h
  | case16 b0 h0 h1 h2 h3 b1 hlh b2 t2 hc ih =>
    rw [utf8Valid.eq_def] at h
    simp [h0, h1, h2, h3, hlh, hc] at h
  | case17 b0 h0 h1 h2 h3 b1 t1 hlh ih =>
    rw [utf8Valid.eq_def] at h
    simp [h0, h1, h2, h3, hlh] at h
  | case18 b0 t0 h0 h1 h2 h3 ih =>
    rw [utf8Valid.eq_def] at h
    simp [h0, h1, h2, h3] at h

namespace Message

/-- `Message::into_bytes` from `message.rs`: control messages are
`[0, selector]`, text is `1 :: utf8-bytes ++ [0]`. -/
def into_bytes : Message → List Nat
  | .TryConnect => [0, 1]
  | .SuccesfullyConnected => [0, 2]
  | .Unexpected => [0, 3]
  | .Disconnect => [0, 4]
  | .SuccesfullyDisonnected => [0, 5]
  | .Text t => 1 :: (t ++ [0])

/-- `Message::from_bytes` from `message.rs`.  `value[0]` on an empty slice
panics; `value[1]` on a one-byte control input panics; for a one-byte text
input the slice `value[1..0]` panics.  `value[1..value.len()-1]` is
`rest.dropLast` where `rest` is the input without its head. -/
def from_bytes (value : List Nat) : DecodeResult :=
  match value with
  | [] => .panicked
  | 0 :: rest =>
    match rest with
    | [] => .panicked
    | 1 :: _ => .ok .TryConnect
    | 2 :: _ => .ok .SuccesfullyConnected
    | 3 :: _ => .ok .Unexpected
    | 4 :: _ => .ok .Disconnect
    | 5 :: _ => .ok .SuccesfullyDisonnected
    | _ :: _ => .err .wrongServiceMessageType
  | 1 :: rest =>
    match rest with
    | [] => .panicked
    | _ :: _ => .ok (.Text (utf8Lossy rest.dropLast))
  | _ :: _ => .err .wrongMessageType

end Message

/-- A datagram: (source or destination address, payload bytes). -/
abbrev Dgram := Nat × List Nat

/-- The `chat_history` map (`HashMap<SocketAddr, Vec<(bool, String)>>`),
modelled as an association list; each entry is (outgoing?, text bytes). -/
abbrev Hist := List (Nat × List (Bool × List Nat))

/-- `HashMap::get` on the history map. -/
def histGet (h : Hist) (k : Nat) : Option (List (Bool × List Nat)) :=
  match h with
  | [] => none
  | (k1, v) :: t => if k1 = k then some v else histGet t k

/-- `history.get_mut(&key).push(entry)` when the key is present, otherwise
`history.insert(key, vec![entry])`, as in `Client::save_to_history`. -/
def histAppend (h : Hist) (k : Nat) (e : Bool × List Nat) : Hist :=
  match h with
  | [] => [(k, [e])]
  | (k1, v) :: t => if k1 = k then (k1, v ++ [e]) :: t else (k1, v) :: histAppend t k e

/-- The state of `Client` in `client.rs`: the bound local address of the socket, the
mutex-guarded optional peer address, and the mutex-guarded history map.  The
model is sequential, so the mutexes (never poisoned) are dropped. -/
structure Client where
  local_addr : Nat
  peer_addr : Option Nat
  chat_history : Hist
  deriving DecidableEq, Repr

/-- Outcome of an operation: `Ok` value, `anyhow` error, Rust panic, or a
blocking receive on an exhausted modelled input stream (which in the real
program would block forever). -/
inductive Outcome (α : Type) where
  | ok (a : α)
  | error (e : ProtoError)
  | panicked
  | blocked
  deriving DecidableEq, Repr

/-- Result of an operation that may receive: the outcome, the client state
afterwards, the datagrams sent (in order), and the not-yet-consumed input. -/
structure StepRes (α : Type) where
  outcome : Outcome α
  state : Client
  sent : List Dgram
  rest : List Dgram
  deriving DecidableEq, Repr

/-- Result of an operation that only sends. -/
structure SendRes where
  outcome : Outcome Unit
  state : Client
  sent : List Dgram
  deriving DecidableEq, Repr

namespace Client

/-- `Client::address` (`socket.local_addr().unwrap()`). -/
def address (c : Client) : Nat := c.local_addr

/-- `Client::set_peer_addr`. -/
def set_peer_addr (c : Client) (a : Option Nat) : Client := { c with peer_addr := a }

/-- `Client::save_to_history`: only `Text` payloads are recorded, keyed by
`self.peer_addr().unwrap()` — `none` models the panic of that `unwrap` when
no peer is set. -/
def save_to_history (c : Client) (outgoing : Bool) (m : Message) : Option Client :=
  match m with
  | .Text t =>
    match c.peer_addr with
    | some key => some { c with chat_history := histAppend c.chat_history key (outgoing, t) }
    | none => none
  | _ => some c

/-- `Client::history`: `None` when no peer is set or the current peer has no
recorded entries, otherwise the entry list of the current peer. -/
def history (c : Client) : Option (List (Bool × List Nat)) :=
  match c.peer_addr with
  | none => none
  | some key => histGet c.chat_history key

/-- `Client::send_to`: records the message in the history (Text only), then
transmits its encoding to `addr`.  `none` models the panic inside
`save_to_history`. -/
def send_to (c : Client) (m : Message) (addr : Nat) : Option (Client × Dgram) :=
  (c.save_to_history true m).map fun c1 => (c1, (addr, m.into_bytes))

/-- `Client::send`: requires a peer (`self.peer_addr()?`, whose error is
`anyhow!("Disconnected")`), then `send_to` the peer. -/
def send (c : Client) (m : Message) : SendRes :=
  match c.peer_addr with
  | none => ⟨.error .disconnected, c, []⟩
  | some p =>
    match c.send_to m p with
    | none => ⟨.panicked, c, []⟩
    | some (c1, out) => ⟨.ok (), c1, [out]⟩

/-- `Client::recv`: receives one datagram (buffer size 65535, so the payload
is truncated to 65535 bytes).  A datagram from a non-peer source is answered
with `Unexpected` and receiving retries on the remaining input; a datagram
from the peer is decoded, `Text` is logged as received, and the message is
returned.  When no peer is set, `self.peer_addr()?` fails the call. -/
def recv (c : Client) (input : List Dgram) : StepRes Message :=
  match input with
  | [] => ⟨.blocked, c, [], []⟩
  | (addr, payload) :: rest =>
    match c.peer_addr with
    | none => ⟨.error .disconnected, c, [], rest⟩
    | some p =>
      if addr ≠ p then
        match c.send_to .Unexpected addr with
        | none => ⟨.panicked, c, [], rest⟩
        | some (c1, out) =>
          let r := c1.recv rest
          ⟨r.outcome, r.state, out :: r.sent, r.rest⟩
      else
        match Message.from_bytes (payload.take 65535) with
        | .panicked => ⟨.panicked, c, [], rest⟩
        | .err e => ⟨.error e, c, [], rest⟩
        | .ok m =>
          match c.save_to_history false m with
          | none => ⟨.panicked, c, [], rest⟩
          | some c1 => ⟨.ok m, c1, [], rest⟩

/-- `Client::recv_text`: dispatches on the message returned by `recv`.
`Disconnect` is acknowledged (`send`, result ignored) before the peer address
is cleared; `SuccesfullyDisonnected` just clears it; both fail with
"Disconnected".  Any other non-text message fails with "Unexpected message". -/
def recv_text (c : Client) (input : List Dgram) : StepRes (List Nat) :=
  let r := c.recv input
  match r.outcome with
  | .ok (.Text t) => ⟨.ok t, r.state, r.sent, r.rest⟩
  | .ok .Disconnect =>
    let s := r.state.send .SuccesfullyDisonnected
    ⟨.error .disconnected, s.state.set_peer_addr none, r.sent ++ s.sent, r.rest⟩
  | .ok .SuccesfullyDisonnected =>
    ⟨.error .disconnected, r.state.set_peer_addr none, r.sent, r.rest⟩
  | .ok m => ⟨.error (.unexpectedMessage m), r.state, r.sent, r.rest⟩
  | .error e => ⟨.error e, r.state, r.sent, r.rest⟩
  | .panicked => ⟨.panicked, r.state, r.sent, r.rest⟩
  | .blocked => ⟨.blocked, r.state, r.sent, r.rest⟩

/-- `Client::wait_for_connection`: receives one datagram into a 2-byte buffer
(the payload is truncated to 2 bytes) and decodes it; `TryConnect` makes the
sender the peer after replying `SuccesfullyConnected`; anything else is an
error, the datagram having been consumed. -/
def wait_for_connection (c : Client) (input : List Dgram) : StepRes Unit :=
  match input with
  | [] => ⟨.blocked, c, [], []⟩
  | (addr, payload) :: rest =>
    match Message.from_bytes (payload.take 2) with
    | .panicked => ⟨.panicked, c, [], rest⟩
    | .err e => ⟨.error e, c, [], rest⟩
    | .ok .TryConnect =>
      match c.send_to .SuccesfullyConnected addr with
      | none => ⟨.panicked, c, [], rest⟩
      | some (c1, out) => ⟨.ok (), c1.set_peer_addr (some addr), [out], rest⟩
    | .ok m => ⟨.error (.expectedTryConnect m), c, [], rest⟩

/-- The receive loop of `Client::connect` (2-byte buffer): a datagram from a
non-target source is answered with `Unexpected` (errors ignored) and the loop
continues; the first datagram from the target is decoded and dispatched. -/
def connect_loop (c : Client) (target : Nat) (input : List Dgram) : StepRes Unit :=
  match input with
  | [] => ⟨.blocked, c, [], []⟩
  | (src, payload) :: rest =>
    if src = target then
      match Message.from_bytes (payload.take 2) with
      | .panicked => ⟨.panicked, c, [], rest⟩
      | .err e => ⟨.error e, c, [], rest⟩
      | .ok .SuccesfullyConnected => ⟨.ok (), c.set_peer_addr (some target), [], rest⟩
      | .ok .Unexpected => ⟨.error .serverNotWaiting, c, [], rest⟩
      | .ok m => ⟨.error (.expectedSuccesfullyConnected m), c, [], rest⟩
    else
      match c.send_to .Unexpected src with
      | none => ⟨.panicked, c, [], rest⟩
      | some (c1, out) =>
        let r := c1.connect_loop target rest
        ⟨r.outcome, r.state, out :: r.sent, r.rest⟩

/-- `Client::connect`: rejects the local address (`ensure!`), sends
`TryConnect` to the target, then runs the receive loop. -/
def connect (c : Client) (target : Nat) (input : List Dgram) : StepRes Unit :=
  if target = c.address then ⟨.error .selfConnect, c, [], input⟩
  else
    match c.send_to .TryConnect target with
    | none => ⟨.panicked, c, [], input⟩
    | some (c1, out) =>
      let r := c1.connect_loop target input
      ⟨r.outcome, r.state, out :: r.sent, r.rest⟩

end Client

/-- The session operations, for stating invariants over all of them. -/
inductive Op where
  | opSend (m : Message)
  | opRecv
  | opRecvText
  | opWaitForConnection
  | opConnect (target : Nat)
  | opSetPeerAddr (a : Option Nat)
  deriving DecidableEq, Repr

/-- The client state after running one operation on the given input stream. -/
def runOp (op : Op) (c : Client) (input : List Dgram) : Client :=
  match op with
  | .opSend m => (c.send m).state
  | .opRecv => (c.recv input).state
  | .opRecvText => (c.recv_text input).state
  | .opWaitForConnection => (c.wait_for_connection input).state
  | .opConnect t => (c.connect t input).state
  | .opSetPeerAddr a => c.set_peer_addr a

/-- A message all of whose text payloads are valid UTF-8 — automatic for a
message built from a Rust `String`. -/
def wellFormed : Message → Bool
  | .Text t => utf8Valid t
  | _ => true

theorem from_bytes_text (rest : List Nat) (h : rest ≠ []) :
    Message.from_bytes (1 :: rest) = .ok (.Text (utf8Lossy rest.dropLast)) := by
  match rest with
  | [] => exact absurd rfl h
  | b :: t => rfl

/-- Claim C1 counterexample: decoding does not validate lengths — the empty
input and the one-byte inputs `[0]` and `[1]` make `from_bytes` panic on an
out-of-bounds index instead of returning a decode error. -/
theorem c1_from_bytes_short_input_panics :
    Message.from_bytes [] = .panicked ∧ Message.from_bytes [0] = .panicked ∧
      Message.from_bytes [1] = .panicked := by
  refine ⟨rfl, rfl, rfl⟩

/-- Claim C1 (amended): for every input of at least two bytes, decoding never
panics, and a one-byte input with an unrecognized leading discriminant (not
0 and not 1) still yields the "Wrong message type" decode error rather than
a crash; so exactly the empty input and the one-byte inputs headed by 0 or 1
panic (the latter shown in the counterexample theorem). -/
theorem from_bytes_no_panic (v : List Nat) (b : Nat) :
    (2 ≤ v.length → Message.from_bytes v ≠ DecodeResult.panicked) ∧
      (b ≠ 0 → b ≠ 1 → Message.from_bytes [b] = .err .wrongMessageType) := by
  constructor
  · intro h
    match v with
    | [] => simp at h
    | [b0] => simp at h
    | b0 :: b1 :: t =>
      rcases b0 with _ | _ | b0 <;> rcases b1 with _ | _ | _ | _ | _ | _ | b1 <;>
        simp [Message.from_bytes]
  · intro h0 h1
    rcases b with _ | _ | b
    · exact absurd rfl h0
    · exact absurd rfl h1
    · simp [Message.from_bytes]

theorem from_bytes_no_panic_witness :
    (2 ≤ ([0, 9] : List Nat).length ∧ Message.from_bytes [0, 9] ≠ DecodeResult.panicked) ∧
      ((7 : Nat) ≠ 0 ∧ (7 : Nat) ≠ 1 ∧
        Message.from_bytes [7] = .err .wrongMessageType) :=
  ⟨⟨by decide, (from_bytes_no_panic [0, 9] 7).1 (by decide)⟩,
    by decide, by decide, (from_bytes_no_panic [0, 9] 7).2 (by decide) (by decide)⟩

/-- Claim C3: every control message round-trips through the codec, and so
does every text message whose payload is valid UTF-8 (as every Rust `String`
is): the leading discriminant and trailing terminator added by `into_bytes`
are removed by `from_bytes`, and lossy UTF-8 decoding is the identity on the
valid payload. -/
theorem round_trip (m : Message) (h : wellFormed m = true) :
    Message.from_bytes m.into_bytes = .ok m := by
  cases m with
  | Text t =>
    simp only [wellFormed] at h
    show Message.from_bytes (1 :: (t ++ [0])) = _
    rw [from_bytes_text (t ++ [0]) (by simp), List.dropLast_concat,
      utf8Lossy_of_valid t h]
  | TryConnect => rfl
  | SuccesfullyConnected => rfl
  | Unexpected => rfl
  | Disconnect => rfl
  | SuccesfullyDisonnected => rfl

theorem round_trip_witness :
    wellFormed (.Text [104, 105]) = true ∧
      Message.from_bytes (Message.into_bytes (.Text [104, 105])) = .ok (.Text [104, 105]) :=
  ⟨by decide, round_trip (.Text [104, 105]) (by decide)⟩

theorem histGet_histAppend_self (h : Hist) (k : Nat) (e : Bool × List Nat) :
    histGet (histAppend h k e) k = some ((histGet h k).getD [] ++ [e]) := by
  induction h with
  | nil => simp [histGet, histAppend]
  | cons hd t ih =>
    rcases hd with ⟨k1, v⟩
    by_cases hk : k1 = k
    · simp [histGet, histAppend, hk]
    · simp [histGet, histAppend, hk, ih]

theorem histGet_histAppend_other (h : Hist) (k : Nat) (e : Bool × List Nat)
    (k2 : Nat) (hne : k ≠ k2) :
    histGet (histAppend h k e) k2 = histGet h k2 := by
  induction h with
  | nil => simp [histGet, histAppend, hne]
  | cons hd t ih =>
    rcases hd with ⟨k1, v⟩
    by_cases hk : k1 = k
    · subst hk
      simp [histGet, histAppend, hne]
    · simp [histGet, histAppend, hk, ih]

/-- One history map extends another: every key keeps its entry list as a
prefix (new entries are only ever appended). -/
def HistExtends (h h2 : Hist) : Prop :=
  ∀ k l, histGet h k = some l → ∃ tail, histGet h2 k = some (l ++ tail)

theorem histExtends_refl (h : Hist) : HistExtends h h :=
  fun _ l hl => ⟨[], by simpa using hl⟩

theorem histExtends_trans {h1 h2 h3 : Hist}
    (a : HistExtends h1 h2) (b : HistExtends h2 h3) : HistExtends h1 h3 := by
  intro k l hl
  obtain ⟨t1, ht1⟩ := a k l hl
  obtain ⟨t2, ht2⟩ := b k (l ++ t1) ht1
  exact ⟨t1 ++ t2, by simpa [List.append_assoc] using ht2⟩

theorem histExtends_append (h : Hist) (k : Nat) (e : Bool × List Nat) :
    HistExtends h (histAppend h k e) := by
  intro k2 l hl
  by_cases hk : k = k2
  · subst hk
    exact ⟨[e], by simp [histGet_histAppend_self, hl]⟩
  · exact ⟨[], by simp [histGet_histAppend_other h k e k2 hk, hl]⟩

theorem save_to_history_spec (c : Client) (o : Bool) (m : Message) (c1 : Client)
    (hs : c.save_to_history o m = some c1) :
    c1.peer_addr = c.peer_addr ∧ c1.local_addr = c.local_addr ∧
      HistExtends c.chat_history c1.chat_history := by
  cases m with
  | Text t =>
    rcases hp : c.peer_addr with _ | p <;> simp [Client.save_to_history, hp] at hs
    subst hs
    exact ⟨by simp [hp], rfl, histExtends_append _ _ _⟩
  | TryConnect =>
    simp [Client.save_to_history] at hs
    subst hs
    exact ⟨rfl, rfl, histExtends_refl _⟩
  | SuccesfullyConnected =>
    simp [Client.save_to_history] at hs
    subst hs
    exact ⟨rfl, rfl, histExtends_refl _⟩
  | Unexpected =>
    simp [Client.save_to_history] at hs
    subst hs
    exact ⟨rfl, rfl, histExtends_refl _⟩
  | Disconnect =>
    simp [Client.save_to_history] at hs
    subst hs
    exact ⟨rfl, rfl, histExtends_refl _⟩
  | SuccesfullyDisonnected =>
    simp [Client.save_to_history] at hs
    subst hs
    exact ⟨rfl, rfl, histExtends_refl _⟩

theorem send_to_control (c : Client) (m : Message) (a : Nat) (hm : ∀ t, m ≠ .Text t) :
    c.send_to m a = some (c, (a, m.into_bytes)) := by
  cases m with
  | Text t => exact absurd rfl (hm t)
  | TryConnect => rfl
  | SuccesfullyConnected => rfl
  | Unexpected => rfl
  | Disconnect => rfl
  | SuccesfullyDisonnected => rfl

theorem recv_nil (c : Client) : c.recv [] = ⟨.blocked, c, [], []⟩ := rfl

theorem recv_cons_noPeer (c : Client) (a : Nat) (payload : List Nat) (rest : List Dgram)
    (hp : c.peer_addr = none) :
    c.recv ((a, payload) :: rest) = ⟨.error .disconnected, c, [], rest⟩ := by
  rw [Client.recv.eq_def]
  simp [hp]

theorem recv_cons_foreign (c : Client) (p a : Nat) (payload : List Nat) (rest : List Dgram)
    (hp : c.peer_addr = some p) (ha : a ≠ p) :
    c.recv ((a, payload) :: rest) =
      ⟨(c.recv rest).outcome, (c.recv rest).state,
        (a, Message.into_bytes .Unexpected) :: (c.recv rest).sent, (c.recv rest).rest⟩ := by
  rw [Client.recv.eq_def]
  simp [hp, ha, Client.send_to, Client.save_to_history]

theorem recv_cons_peer (c : Client) (p : Nat) (payload : List Nat) (rest : List Dgram)
    (hp : c.peer_addr = some p) :
    c.recv ((p, payload) :: rest) =
      match Message.from_bytes (payload.take 65535) with
      | .panicked => ⟨.panicked, c, [], rest⟩
      | .err e => ⟨.error e, c, [], rest⟩
      | .ok m =>
        match c.save_to_history false m with
        | none => ⟨.panicked, c, [], rest⟩
        | some c1 => ⟨.ok m, c1, [], rest⟩ := by
  rw [Client.recv.eq_def]
  simp [hp]

theorem recv_preserves (c : Client) (input : List Dgram) :
    (c.recv input).state.peer_addr = c.peer_addr ∧
      (c.recv input).state.local_addr = c.local_addr ∧
      HistExtends c.chat_history (c.recv input).state.chat_history := by
  induction input generalizing c with
  | nil => exact ⟨rfl, rfl, histExtends_refl _⟩
  | cons d rest ih =>
    rcases d with ⟨a, payload⟩
    rcases hp : c.peer_addr with _ | p
    · rw [recv_cons_noPeer c a payload rest hp]
      exact ⟨hp, rfl, histExtends_refl _⟩
    · by_cases ha : a = p
      · subst ha
        rw [recv_cons_peer c a payload rest hp]
        split
        · exact ⟨hp, rfl, histExtends_refl _⟩
        · exact ⟨hp, rfl, histExtends_refl _⟩
        · split
          · exact ⟨hp, rfl, histExtends_refl _⟩
          · rename_i hs
            obtain ⟨h1, h2, h3⟩ := save_to_history_spec c false _ _ hs
            exact ⟨h1.trans hp, h2, h3⟩
      · rw [recv_cons_foreign c p a payload rest hp ha]
        exact ⟨(ih c).1.trans hp, (ih c).2.1, (ih c).2.2⟩

/-- Claim C2: with the peer set to `p`, `recv` never surfaces a message from
any other source: if it returns a message, the input decomposes as a run of
non-peer datagrams — each answered with `Unexpected` to its sender — followed
by the peer datagram whose payload decodes to the returned message; and if
the whole input is from non-peer sources, every datagram is answered with
`Unexpected` and nothing is returned (the real program keeps blocking). -/
theorem recv_peer_isolation (c : Client) (p : Nat) (input : List Dgram)
    (h : c.peer_addr = some p) :
    ((∀ d ∈ input, d.1 ≠ p) →
        c.recv input =
          ⟨.blocked, c, input.map (fun d => (d.1, Message.into_bytes .Unexpected)), []⟩) ∧
      (∀ m, (c.recv input).outcome = .ok m →
        ∃ pre payload rest, input = pre ++ (p, payload) :: rest ∧
          (∀ d ∈ pre, d.1 ≠ p) ∧
          Message.from_bytes (payload.take 65535) = .ok m ∧
          (c.recv input).sent = pre.map (fun d => (d.1, Message.into_bytes .Unexpected)) ∧
          (c.recv input).rest = rest) := by
  induction input with
  | nil =>
    constructor
    · intro _
      rfl
    · intro m hm
      simp [recv_nil] at hm
  | cons d rest ih =>
    rcases d with ⟨a, payload⟩
    by_cases ha : a = p
    · subst ha
      constructor
      · intro hall
        exact absurd rfl (hall (a, payload) (by simp))
      · intro m hm
        rw [recv_cons_peer c a payload rest h] at hm ⊢
        rcases hfb : Message.from_bytes (payload.take 65535) with m2 | e | _
        · rcases hs : c.save_to_history false m2 with _ | c1
          · simp [hfb, hs] at hm
          · simp only [hfb, hs] at hm
            obtain rfl : m2 = m := by simpa using hm
            refine ⟨[], payload, rest, rfl, by simp, hfb, ?_, ?_⟩ <;> simp [hfb, hs]
        · simp [hfb] at hm
        · simp [hfb] at hm
    · constructor
      · intro hall
        rw [recv_cons_foreign c p a payload rest h ha]
        rw [ih.1 (fun d hd => hall d (List.mem_cons_of_mem _ hd))]
        simp
      · intro m hm
        rw [recv_cons_foreign c p a payload rest h ha] at hm ⊢
        obtain ⟨pre, payload2, rest2, hin, hpre, hfb, hsent, hrest2⟩ := ih.2 m hm
        refine ⟨(a, payload) :: pre, payload2, rest2, by simp [hin], ?_, hfb, ?_, ?_⟩
        · intro d hd
          rcases List.mem_cons.mp hd with h1 | h2
          · rw [h1]
            exact ha
          · exact hpre d h2
        · simp [hsent]
        · simpa using hrest2

theorem recv_peer_isolation_witness :
    Client.recv ⟨0, some 1, []⟩ [(2, [0, 1])] =
      ⟨.blocked, ⟨0, some 1, []⟩, [(2, Message.into_bytes .Unexpected)], []⟩ :=
  (recv_peer_isolation ⟨0, some 1, []⟩ 1 [(2, [0, 1])] rfl).1 (by decide)

/-- Claim C4: with a peer set, `recv_text` on a `Disconnect` from the peer
replies `SuccesfullyDisonnected` (called DisconnectAck in the spec) to the peer,
clears the peer address and fails with "Disconnected"; on a
`SuccesfullyDisonnected` it clears the peer address and fails with
"Disconnected" without sending anything; on any other non-text message it
fails with "Unexpected message" and the peer address is left unchanged. -/
theorem recv_text_dispatch (c : Client) (p : Nat) (input : List Dgram)
    (h : c.peer_addr = some p) :
    ((c.recv input).outcome = .ok .Disconnect →
        c.recv_text input =
          ⟨.error .disconnected, (c.recv input).state.set_peer_addr none,
            (c.recv input).sent ++ [(p, Message.into_bytes .SuccesfullyDisonnected)],
            (c.recv input).rest⟩) ∧
      ((c.recv input).outcome = .ok .SuccesfullyDisonnected →
        c.recv_text input =
          ⟨.error .disconnected, (c.recv input).state.set_peer_addr none,
            (c.recv input).sent, (c.recv input).rest⟩) ∧
      (∀ m, (c.recv input).outcome = .ok m →
        (m = .TryConnect ∨ m = .SuccesfullyConnected ∨ m = .Unexpected) →
        c.recv_text input =
          ⟨.error (.unexpectedMessage m), (c.recv input).state, (c.recv input).sent,
            (c.recv input).rest⟩ ∧
          (c.recv_text input).state.peer_addr = some p) ∧
      (∀ t, (c.recv input).outcome = .ok (.Text t) →
        c.recv_text input =
          ⟨.ok t, (c.recv input).state, (c.recv input).sent, (c.recv input).rest⟩) := by
  have hpeer : (c.recv input).state.peer_addr = some p := (recv_preserves c input).1.trans h
  have hsend : (c.recv input).state.send_to .SuccesfullyDisonnected p =
      some ((c.recv input).state, (p, Message.into_bytes .SuccesfullyDisonnected)) :=
    send_to_control _ _ _ (by simp)
  refine ⟨?_, ?_, ?_, ?_⟩
  · intro hm
    simp [Client.recv_text, hm, Client.send, hpeer, hsend]
  · intro hm
    simp [Client.recv_text, hm]
  · intro m hm hv
    have hres : c.recv_text input =
        ⟨.error (.unexpectedMessage m), (c.recv input).state, (c.recv input).sent,
          (c.recv input).rest⟩ := by
      rcases hv with rfl | rfl | rfl <;> simp [Client.recv_text, hm]
    exact ⟨hres, by rw [hres]; exact hpeer⟩
  · intro t hm
    simp [Client.recv_text, hm]

theorem recv_text_dispatch_witness :
    Client.recv_text ⟨0, some 1, []⟩ [(1, [0, 4])] =
      ⟨.error .disconnected,
        (Client.recv ⟨0, some 1, []⟩ [(1, [0, 4])]).state.set_peer_addr none,
        (Client.recv ⟨0, some 1, []⟩ [(1, [0, 4])]).sent ++
          [(1, Message.into_bytes .SuccesfullyDisonnected)],
        (Client.recv ⟨0, some 1, []⟩ [(1, [0, 4])]).rest⟩ :=
  (recv_text_dispatch ⟨0, some 1, []⟩ 1 [(1, [0, 4])] rfl).1 (by decide)

/-- Claim C5: `wait_for_connection` consumes exactly one datagram (truncated
to the 2-byte buffer).  A `TryConnect` makes the sender the peer and is
answered with `SuccesfullyConnected` (called ConnectionAccepted in the spec); any
other decoded message, or a decode error, fails the call and leaves the
client state — in particular an unset peer address — unchanged. -/
theorem wait_for_connection_spec (c : Client) (a : Nat) (payload : List Nat)
    (rest : List Dgram) :
    (Message.from_bytes (payload.take 2) = .ok .TryConnect →
        c.wait_for_connection ((a, payload) :: rest) =
          ⟨.ok (), c.set_peer_addr (some a),
            [(a, Message.into_bytes .SuccesfullyConnected)], rest⟩) ∧
      (∀ m, Message.from_bytes (payload.take 2) = .ok m → m ≠ .TryConnect →
        c.wait_for_connection ((a, payload) :: rest) =
          ⟨.error (.expectedTryConnect m), c, [], rest⟩) ∧
      (∀ e, Message.from_bytes (payload.take 2) = .err e →
        c.wait_for_connection ((a, payload) :: rest) = ⟨.error e, c, [], rest⟩) := by
  have hsend : c.send_to .SuccesfullyConnected a =
      some (c, (a, Message.into_bytes .SuccesfullyConnected)) :=
    send_to_control _ _ _ (by simp)
  refine ⟨?_, ?_, ?_⟩
  · intro hm
    simp [Client.wait_for_connection, hm, hsend]
  · intro m hm hne
    cases m <;> first
      | exact absurd rfl hne
      | simp [Client.wait_for_connection, hm]
  · intro e hm
    simp [Client.wait_for_connection, hm]

theorem wait_for_connection_spec_witness :
    Client.wait_for_connection ⟨0, none, []⟩ [(2, [0, 1])] =
      ⟨.ok (), Client.set_peer_addr ⟨0, none, []⟩ (some 2),
        [(2, Message.into_bytes .SuccesfullyConnected)], []⟩ :=
  (wait_for_connection_spec ⟨0, none, []⟩ 2 [0, 1] []).1 (by decide)

/-- Claim C7: `send` fails with the not-connected error ("Disconnected")
when no peer is set, sending nothing and changing nothing; with a peer set it
logs a (sent, text) entry exactly for `Text` payloads — control messages are
not logged — and transmits the encoded bytes to the peer. -/
theorem send_spec (c : Client) (m : Message) :
    (c.peer_addr = none → c.send m = ⟨.error .disconnected, c, []⟩) ∧
      (∀ p, c.peer_addr = some p →
        (∀ t, m = .Text t →
            c.send m =
              ⟨.ok (), { c with chat_history := histAppend c.chat_history p (true, t) },
                [(p, Message.into_bytes m)]⟩) ∧
          ((∀ t, m ≠ .Text t) → c.send m = ⟨.ok (), c, [(p, Message.into_bytes m)]⟩)) := by
  refine ⟨?_, ?_⟩
  · intro h
    simp [Client.send, h]
  · intro p hp
    constructor
    · intro t ht
      subst ht
      simp [Client.send, hp, Client.send_to, Client.save_to_history]
    · intro hnt
      simp [Client.send, hp, send_to_control c m p hnt]

theorem send_spec_witness :
    Client.send ⟨0, some 1, []⟩ (.Text [104]) =
      ⟨.ok (), ⟨0, some 1, histAppend [] 1 (true, [104])⟩,
        [(1, Message.into_bytes (.Text [104]))]⟩ :=
  ((send_spec ⟨0, some 1, []⟩ (.Text [104])).2 1 rfl).1 [104] rfl

/-- Claim C8: connecting to the local address fails immediately with the
self-connect error, sends nothing, consumes no input and leaves the client
state (peer address and history) unchanged. -/
theorem connect_self (c : Client) (input : List Dgram) :
    c.connect c.address input = ⟨.error .selfConnect, c, [], input⟩ := by
  simp [Client.connect]

/-- Claim C10: `history` returns `none` whenever no peer is set — regardless
of entries recorded for earlier peers — and with a peer set it returns
exactly what the history map stores for that peer (so entries of other peers
are never returned). -/
theorem history_spec (c : Client) :
    (c.peer_addr = none → c.history = none) ∧
      (∀ p, c.peer_addr = some p → c.history = histGet c.chat_history p) := by
  constructor
  · intro h
    simp [Client.history, h]
  · intro p hp
    simp [Client.history, hp]

theorem history_spec_witness :
    Client.history ⟨0, none, [(2, [(true, [104])])]⟩ = none ∧
      Client.history ⟨0, some 1, [(2, [(true, [104])])]⟩ =
        histGet [(2, [(true, [104])])] 1 :=
  ⟨(history_spec ⟨0, none, [(2, [(true, [104])])]⟩).1 rfl,
    (history_spec ⟨0, some 1, [(2, [(true, [104])])]⟩).2 1 rfl⟩

theorem connect_loop_nil (c : Client) (target : Nat) :
    c.connect_loop target [] = ⟨.blocked, c, [], []⟩ := rfl

theorem connect_loop_cons_target (c : Client) (target : Nat) (payload : List Nat)
    (rest : List Dgram) :
    c.connect_loop target ((target, payload) :: rest) =
      match Message.from_bytes (payload.take 2) with
      | .panicked => ⟨.panicked, c, [], rest⟩
      | .err e => ⟨.error e, c, [], rest⟩
      | .ok .SuccesfullyConnected => ⟨.ok (), c.set_peer_addr (some target), [], rest⟩
      | .ok .Unexpected => ⟨.error .serverNotWaiting, c, [], rest⟩
      | .ok m => ⟨.error (.expectedSuccesfullyConnected m), c, [], rest⟩ := by
  rw [Client.connect_loop.eq_def]
  simp

theorem connect_loop_cons_foreign (c : Client) (target a : Nat) (payload : List Nat)
    (rest : List Dgram) (ha : a ≠ target) :
    c.connect_loop target ((a, payload) :: rest) =
      ⟨(c.connect_loop target rest).outcome, (c.connect_loop target rest).state,
        (a, Message.into_bytes .Unexpected) :: (c.connect_loop target rest).sent,
        (c.connect_loop target rest).rest⟩ := by
  rw [Client.connect_loop.eq_def]
  simp [ha, Client.send_to, Client.save_to_history]

theorem connect_loop_skip (c : Client) (target : Nat) (pre : List Dgram)
    (hpre : ∀ d ∈ pre, d.1 ≠ target) (tail : List Dgram) :
    c.connect_loop target (pre ++ tail) =
      ⟨(c.connect_loop target tail).outcome, (c.connect_loop target tail).state,
        pre.map (fun d => (d.1, Message.into_bytes .Unexpected)) ++
          (c.connect_loop target tail).sent,
        (c.connect_loop target tail).rest⟩ := by
  induction pre with
  | nil => simp
  | cons d pre ih =>
    rcases d with ⟨a, payload⟩
    have ha : a ≠ target := hpre (a, payload) (by simp)
    rw [List.cons_append, connect_loop_cons_foreign c target a payload _ ha,
      ih (fun d hd => hpre d (List.mem_cons_of_mem _ hd))]
    simp

theorem connect_unfold (c : Client) (target : Nat) (input : List Dgram)
    (h : target ≠ c.address) :
    c.connect target input =
      ⟨(c.connect_loop target input).outcome, (c.connect_loop target input).state,
        (target, Message.into_bytes .TryConnect) :: (c.connect_loop target input).sent,
        (c.connect_loop target input).rest⟩ := by
  simp [Client.connect, h, Client.send_to, Client.save_to_history]

/-- Claim C6: `connect target` (target distinct from the local address) sends
`TryConnect` first; every datagram from a non-target source is answered with
`Unexpected` and the loop goes on (if all input is foreign nothing is
returned and every foreign datagram got an `Unexpected`); the first datagram
from the target decides the call: `SuccesfullyConnected` (called ConnectionAccepted in the
spec) sets the peer to the target and succeeds, `Unexpected`
fails with the handshake-rejected error, and any other decoded message fails
with the unexpected-response error. -/
theorem connect_spec (c : Client) (target : Nat) (input : List Dgram)
    (h : target ≠ c.address) :
    ((∀ d ∈ input, d.1 ≠ target) →
        c.connect target input =
          ⟨.blocked, c,
            (target, Message.into_bytes .TryConnect) ::
              input.map (fun d => (d.1, Message.into_bytes .Unexpected)), []⟩) ∧
      (∀ pre payload rest, input = pre ++ (target, payload) :: rest →
        (∀ d ∈ pre, d.1 ≠ target) →
        (Message.from_bytes (payload.take 2) = .ok .SuccesfullyConnected →
            c.connect target input =
              ⟨.ok (), c.set_peer_addr (some target),
                (target, Message.into_bytes .TryConnect) ::
                  pre.map (fun d => (d.1, Message.into_bytes .Unexpected)), rest⟩) ∧
          (Message.from_bytes (payload.take 2) = .ok .Unexpected →
            c.connect target input =
              ⟨.error .serverNotWaiting, c,
                (target, Message.into_bytes .TryConnect) ::
                  pre.map (fun d => (d.1, Message.into_bytes .Unexpected)), rest⟩) ∧
          (∀ m, Message.from_bytes (payload.take 2) = .ok m →
            m ≠ .SuccesfullyConnected → m ≠ .Unexpected →
            c.connect target input =
              ⟨.error (.expectedSuccesfullyConnected m), c,
                (target, Message.into_bytes .TryConnect) ::
                  pre.map (fun d => (d.1, Message.into_bytes .Unexpected)), rest⟩)) := by
  constructor
  · intro hall
    have hb : c.connect_loop target input =
        ⟨.blocked, c, input.map (fun d => (d.1, Message.into_bytes .Unexpected)), []⟩ := by
      simpa [connect_loop_nil] using connect_loop_skip c target input hall []
    rw [connect_unfold c target input h, hb]
  · intro pre payload rest hin hpre
    subst hin
    rw [connect_unfold c target _ h,
      connect_loop_skip c target pre hpre ((target, payload) :: rest),
      connect_loop_cons_target c target payload rest]
    refine ⟨?_, ?_, ?_⟩
    · intro hm
      simp [hm]
    · intro hm
      simp [hm]
    · intro m hm h1 h2
      cases m <;> first
        | exact absurd rfl h1
        | exact absurd rfl h2
        | simp [hm]

theorem connect_spec_witness :
    Client.connect ⟨0, none, []⟩ 1 [(2, [9]), (1, [0, 2])] =
      ⟨.ok (), Client.set_peer_addr ⟨0, none, []⟩ (some 1),
        [(1, Message.into_bytes .TryConnect), (2, Message.into_bytes .Unexpected)], []⟩ :=
  (((connect_spec ⟨0, none, []⟩ 1 [(2, [9]), (1, [0, 2])] (by decide)).2
      [(2, [9])] [0, 2] [] rfl (by decide)).1) (by decide)

theorem send_extends (c : Client) (m : Message) :
    HistExtends c.chat_history (c.send m).state.chat_history := by
  rcases hp : c.peer_addr with _ | p
  · simp only [Client.send, hp]
    exact histExtends_refl _
  · rcases hs : c.send_to m p with _ | ⟨c1, out⟩
    · simp only [Client.send, hp, hs]
      exact histExtends_refl _
    · simp only [Client.send, hp, hs]
      rcases Option.map_eq_some'.mp hs with ⟨c2, hsave, heq⟩
      cases heq
      exact (save_to_history_spec c true m _ hsave).2.2

theorem recv_text_extends (c : Client) (input : List Dgram) :
    HistExtends c.chat_history (c.recv_text input).state.chat_history := by
  have hr := (recv_preserves c input).2.2
  rcases ho : (c.recv input).outcome with m | e | _ | _
  · cases m
    · simp only [Client.recv_text, ho]
      exact hr
    · simp only [Client.recv_text, ho]
      exact hr
    · simp only [Client.recv_text, ho]
      exact hr
    · simp only [Client.recv_text, ho, Client.set_peer_addr]
      exact histExtends_trans hr (send_extends (c.recv input).state .SuccesfullyDisonnected)
    · simp only [Client.recv_text, ho, Client.set_peer_addr]
      exact hr
    · simp only [Client.recv_text, ho]
      exact hr
  · simp only [Client.recv_text, ho]
    exact hr
  · simp only [Client.recv_text, ho]
    exact hr
  · simp only [Client.recv_text, ho]
    exact hr

theorem wait_for_connection_chat (c : Client) (input : List Dgram) :
    (c.wait_for_connection input).state.chat_history = c.chat_history := by
  rcases input with _ | ⟨⟨a, payload⟩, rest⟩
  · rfl
  · rcases hm : Message.from_bytes (payload.take 2) with m | e | _
    · cases m <;>
        simp [Client.wait_for_connection, hm, Client.set_peer_addr,
          Client.send_to, Client.save_to_history]
    · simp [Client.wait_for_connection, hm]
    · simp [Client.wait_for_connection, hm]

theorem connect_loop_chat (c : Client) (target : Nat) (input : List Dgram) :
    (c.connect_loop target input).state.chat_history = c.chat_history := by
  induction input with
  | nil => rfl
  | cons d rest ih =>
    rcases d with ⟨a, payload⟩
    by_cases ha : a = target
    · subst ha
      rw [connect_loop_cons_target]
      rcases hm : Message.from_bytes (payload.take 2) with m | e | _
      · cases m <;> simp [hm, Client.set_peer_addr]
      · simp [hm]
      · simp [hm]
    · rw [connect_loop_cons_foreign c target a payload rest ha]
      exact ih

theorem connect_chat (c : Client) (target : Nat) (input : List Dgram) :
    (c.connect target input).state.chat_history = c.chat_history := by
  by_cases h : target = c.address
  · simp [Client.connect, h]
  · rw [connect_unfold c target input h]
    exact connect_loop_chat c target input

/-- Claim C9: the conversation log is append-only across every session
operation (send, recv, recv_text, wait_for_connection, connect, and the
internal peer-address update used by disconnect handling): any entry list a
peer key holds beforehand is still there afterwards with the old entries as
an unchanged prefix — in particular clearing the peer address keeps all
entries, and a reconnect appends rather than replaces. -/
theorem history_append_only (op : Op) (c : Client) (input : List Dgram)
    (k : Nat) (l : List (Bool × List Nat))
    (h : histGet c.chat_history k = some l) :
    ∃ tail, histGet (runOp op c input).chat_history k = some (l ++ tail) := by
  have hext : HistExtends c.chat_history (runOp op c input).chat_history := by
    cases op with
    | opSend m => exact send_extends c m
    | opRecv => exact (recv_preserves c input).2.2
    | opRecvText => exact recv_text_extends c input
    | opWaitForConnection =>
      rw [show runOp .opWaitForConnection c input = (c.wait_for_connection input).state from rfl,
        wait_for_connection_chat c input]
      exact histExtends_refl _
    | opConnect t =>
      rw [show runOp (.opConnect t) c input = (c.connect t input).state from rfl,
        connect_chat c t input]
      exact histExtends_refl _
    | opSetPeerAddr a => exact histExtends_refl _
  exact hext k l h

theorem history_append_only_witness :
    ∃ tail,
      histGet (runOp (.opSend (.Text [98])) ⟨0, some 1, [(1, [(false, [97])])]⟩ []).chat_history
        1 = some ([(false, [97])] ++ tail) :=
  history_append_only (.opSend (.Text [98])) ⟨0, some 1, [(1, [(false, [97])])]⟩ []
    1 [(false, [97])] rfl
